import Mathlib

/-!
Verification of the pls7-cli poker engine persistence layer and of the
spec-level game properties (chip conservation, hand ranking order,
pot-limit formula).

The definitions in the first part are a shallow embedding of the Go
source: the save module (`GameSaveData`, `ToSaveData`, `FromSaveData`,
the AI-profile converters) and the `SaveManager` file-name and listing
logic.  Go `int` is embedded as `Int`, `float64` as `Float` (the save
code only copies float fields, it never computes with them), Go `nil`
pointers as `none`, and fallible functions as `Except`.  Wall-clock
reads (`time.Now()`) become explicit `now` parameters.

The second part models, from the specification document, the components
whose source is not part of this extract: the betting state machine
(for chip conservation), the hand-rank total order, and the pot-limit
betting calculator.  Those definitions carry a `Modelled from the spec`
doc comment.
-/

namespace Pls7

/-- Embeds `poker.HoleCardRules` (count of hole cards and use constraint). -/
structure HoleCardRules where
  count : Int
  useConstraint : String
deriving DecidableEq

/-- Embeds `poker.HandRankingsRules`. -/
structure HandRankingsRules where
  useStandardRankings : Bool
deriving DecidableEq

/-- Embeds `poker.LowHandRules`. -/
structure LowHandRules where
  enabled : Bool
deriving DecidableEq

/-- Embeds `poker.GameRules`: the variant descriptor consumed by the engine. -/
structure GameRules where
  name : String
  abbreviation : String
  bettingLimit : String
  holeCards : HoleCardRules
  handRankings : HandRankingsRules
  lowHand : LowHandRules
deriving DecidableEq

/-- Embeds `engine.Difficulty`. -/
inductive Difficulty
  | easy
  | medium
  | hard
deriving DecidableEq

/-- Embeds `engine.GamePhase`. -/
inductive GamePhase
  | preFlop
  | flop
  | turn
  | river
  | showdown
  | handOver
deriving DecidableEq

/-- Embeds `engine.PlayerStatus`; `playing` is the Go zero value. -/
inductive PlayerStatus
  | playing
  | folded
  | allIn
  | eliminated
deriving DecidableEq

/-- Embeds `engine.AIProfile` (all behaviour parameters are `float64`). -/
structure AIProfile where
  name : String
  playHandThreshold : Float
  raiseHandThreshold : Float
  bluffingFrequency : Float
  aggressionFactor : Float
  minRaiseMultiplier : Float
  maxRaiseMultiplier : Float

/-- Embeds `poker.Card` (suit and rank are integer-valued). -/
structure Card where
  suit : Int
  rank : Int
deriving DecidableEq

/-- Embeds `engine.Player`; the Go struct is built with composite
literals, so omitted fields take Go zero values. -/
structure Player where
  name : String
  chips : Int
  isCPU : Bool
  position : Int
  status : PlayerStatus
  currentBet : Int
  totalBetInHand : Int
  lastActionDesc : String
  hand : List Card
  profile : Option AIProfile

/-- Embeds the engine's pseudo-random source: `poker.NewRand(seed)` is
determined by its seed, so the source is embedded as the seed it was
created from. -/
structure RandState where
  seed : Int
deriving DecidableEq

/-- Embeds the `BettingLimitCalculator` strategy chosen at construction:
a closed set of two variants. -/
inductive BettingLimitCalculator
  | potLimitCalculator
  | noLimitCalculator
deriving DecidableEq

/-- Embeds the `handEvaluator` function field of `Game`; `FromSaveData`
always installs the default `evaluateHandStrength`. -/
inductive HandEvaluatorKind
  | evaluateHandStrength
  | custom (id : Nat)
deriving DecidableEq

/-- Embeds `poker.Deck`. -/
structure Deck where
  cards : List Card
deriving DecidableEq

/-- Embeds `engine.Game`: the orchestrator state.  The Go `Deck` field is
a pointer, embedded as an `Option` (nil when a restored game has not yet
dealt). -/
structure Game where
  players : List Player
  deck : Option Deck
  communityCards : List Card
  pot : Int
  dealerPos : Int
  currentTurnPos : Int
  phase : GamePhase
  betToCall : Int
  lastRaiseAmount : Int
  handCount : Int
  smallBlind : Int
  bigBlind : Int
  difficulty : Difficulty
  devMode : Bool
  showsOuts : Bool
  rules : GameRules
  rand : RandState
  blindUpInterval : Int
  bettingCalculator : BettingLimitCalculator
  totalInitialChips : Int
  actionsTakenThisRound : Int
  actionCloserPos : Int
  handEvaluator : HandEvaluatorKind

/-- Embeds `engine.AIProfileSaveData`. -/
structure AIProfileSaveData where
  name : String
  playHandThreshold : Float
  raiseHandThreshold : Float
  bluffingFrequency : Float
  aggressionFactor : Float
  minRaiseMultiplier : Float
  maxRaiseMultiplier : Float

/-- Embeds `engine.PlayerSaveData` of the current (v2.0) save format:
only the per-player persistent fields. -/
structure PlayerSaveData where
  name : String
  chips : Int
  isCPU : Bool
  position : Int
  profile : Option AIProfileSaveData

/-- Embeds `engine.GameMetadata` of the current (v2.0) save format. -/
structure GameMetadata where
  handCount : Int
  dealerPos : Int
  smallBlind : Int
  bigBlind : Int
  blindUpInterval : Int
  totalInitialChips : Int
deriving DecidableEq

/-- Embeds `engine.GameSettings`. -/
structure GameSettings where
  difficulty : Difficulty
  devMode : Bool
  showsOuts : Bool
deriving DecidableEq

/-- Embeds `engine.GameSaveData` of the current (v2.0) save format; the
`time.Now()` timestamp is an explicit parameter of `ToSaveData`. -/
structure GameSaveData where
  version : String
  timestamp : Int
  gameMetadata : GameMetadata
  players : List PlayerSaveData
  gameRules : GameRules
  settings : GameSettings

/-- Embeds `engine.aiProfileToSaveData`: copies every field, nil to nil. -/
def aiProfileToSaveData (profile : Option AIProfile) : Option AIProfileSaveData :=
  match profile with
  | none => none
  | some p =>
    some (AIProfileSaveData.mk p.name p.playHandThreshold p.raiseHandThreshold
      p.bluffingFrequency p.aggressionFactor p.minRaiseMultiplier p.maxRaiseMultiplier)

/-- Embeds `engine.aiProfileFromSaveData`: copies every field, nil to nil. -/
def aiProfileFromSaveData (saveData : Option AIProfileSaveData) : Option AIProfile :=
  match saveData with
  | none => none
  | some p =>
    some (AIProfile.mk p.name p.playHandThreshold p.raiseHandThreshold
      p.bluffingFrequency p.aggressionFactor p.minRaiseMultiplier p.maxRaiseMultiplier)

/-- Embeds the player conversion loop of `(*Game).ToSaveData`. -/
def playerToSaveData (p : Player) : PlayerSaveData :=
  PlayerSaveData.mk p.name p.chips p.isCPU p.position (aiProfileToSaveData p.profile)

/-- Embeds `(*Game).ToSaveData` (v2.0 format): records player seating and
stacks, game metadata, rules and settings; `now` is the `time.Now()`
timestamp. -/
def Game.ToSaveData (g : Game) (now : Int) : GameSaveData :=
  GameSaveData.mk "2.0" now
    (GameMetadata.mk g.handCount g.dealerPos g.smallBlind g.bigBlind
      g.blindUpInterval g.totalInitialChips)
    (g.players.map playerToSaveData)
    g.rules
    (GameSettings.mk g.difficulty g.devMode g.showsOuts)

/-- Embeds the fresh `&Player{...}` literal built inside `FromSaveData`:
unlisted Go fields take zero values (`PlayerStatusPlaying`, 0, "", nil). -/
def playerFromSaveData (pd : PlayerSaveData) : Player :=
  Player.mk pd.name pd.chips pd.isCPU pd.position PlayerStatus.playing 0 0 "" []
    (aiProfileFromSaveData pd.profile)

/-- Embeds the `&Game{...}` literal built by `FromSaveData` once the
betting calculator has been selected: persistent data comes from the
save, every mid-hand field is reinitialised (`PhaseHandOver`, empty pot
and betting state, turn positions -1), the random source is seeded from
the wall clock (`now`), and the default hand evaluator is installed. -/
def restoredGame (saveData : GameSaveData) (now : Int)
    (calculator : BettingLimitCalculator) : Game :=
  Game.mk (saveData.players.map playerFromSaveData) none [] 0
    saveData.gameMetadata.dealerPos (-1) GamePhase.handOver 0 0
    saveData.gameMetadata.handCount saveData.gameMetadata.smallBlind
    saveData.gameMetadata.bigBlind saveData.settings.difficulty
    saveData.settings.devMode saveData.settings.showsOuts saveData.gameRules
    (RandState.mk now) saveData.gameMetadata.blindUpInterval calculator
    saveData.gameMetadata.totalInitialChips 0 (-1)
    HandEvaluatorKind.evaluateHandStrength

/-- Embeds `engine.FromSaveData` (current version): accepts versions
"1.0" and "2.0", selects the betting calculator from the rules'
betting-limit kind, and otherwise fails; `now` is the
`time.Now().UnixNano()` value used to seed the new random source. -/
def FromSaveData (saveData : GameSaveData) (now : Int) : Except String Game :=
  if saveData.version ≠ "1.0" ∧ saveData.version ≠ "2.0" then
    Except.error ("unsupported save file version: " ++ saveData.version)
  else if saveData.gameRules.bettingLimit = "pot_limit" then
    Except.ok (restoredGame saveData now BettingLimitCalculator.potLimitCalculator)
  else if saveData.gameRules.bettingLimit = "no_limit" then
    Except.ok (restoredGame saveData now BettingLimitCalculator.noLimitCalculator)
  else
    Except.error ("unknown betting limit type: " ++ saveData.gameRules.bettingLimit)

/-- Helper: whether an `Except` value carries a success. -/
def exceptIsOk {ε α : Type} : Except ε α → Bool
  | Except.ok _ => true
  | Except.error _ => false

/-! ### SaveManager: file names and directory listing

File names are embedded as `List Char`; the file system is embedded as
the list of directory entries `ReadDir` would return. -/

/-- Embeds one `strings.ReplaceAll(s, old, "_")` call of
`sanitizeFilename` (every pattern replaced there is a single
character). -/
def replaceAllChar (old : Char) (s : List Char) : List Char :=
  s.map fun c => if c = old then '_' else c

/-- The characters `sanitizeFilename` replaces, in the order the Go code
replaces them. -/
def invalidFilenameChars : List Char :=
  ['/', '\\', ':', '*', '?', '"', '<', '>', '|']

/-- Trims characters satisfying `p` from both ends, as `strings.Trim` /
`strings.TrimSpace` do. -/
def trimWhile (p : Char → Bool) (s : List Char) : List Char :=
  ((s.dropWhile p).reverse.dropWhile p).reverse

/-- The replace-and-trim pipeline of `(*SaveManager).sanitizeFilename`:
the nine sequential `strings.ReplaceAll` calls, then `strings.TrimSpace`,
then `strings.Trim(filename, ".")`. -/
def sanitizeCore (filename : List Char) : List Char :=
  trimWhile (fun c => c = '.')
    (trimWhile Char.isWhitespace
      (invalidFilenameChars.foldl (fun acc old => replaceAllChar old acc) filename))

/-- Embeds `(*SaveManager).sanitizeFilename`: replace the nine invalid
characters by underscores, strip leading and trailing whitespace, then
leading and trailing dots, and fall back to "save" when nothing is
left. -/
def sanitizeFilename (filename : List Char) : List Char :=
  if sanitizeCore filename = [] then "save".toList else sanitizeCore filename

/-- Reading of the sanitization rule in the claim's words: each invalid
character replaced by an underscore in a single pass, whitespace and
then dots trimmed from both ends, "save" substituted for an empty
result.  Compared against `sanitizeFilename`, which embeds the Go
code's nine sequential replacements. -/
def sanitizeFilenameSpec (filename : List Char) : List Char :=
  let f := trimWhile (fun c => c = '.')
    (trimWhile Char.isWhitespace
      (filename.map fun c => if c ∈ invalidFilenameChars then '_' else c))
  if f = [] then "save".toList else f

/-- The ".json" extension. -/
def jsonExt : List Char := ".json".toList

/-- Embeds the extension rule of `SaveGame`: append ".json" when the name
does not already end with it. -/
def addJsonExt (f : List Char) : List Char :=
  if jsonExt.isSuffixOf f then f else f ++ jsonExt

/-- Embeds the filename computation and error structure of
`(*SaveManager).SaveGame`: an empty name becomes a timestamp-based one
(`now` embeds the formatted `time.Now()`), the name is sanitized, the
".json" extension is appended when absent, and the only remaining
failure sources are JSON serialization and the file write, embedded as
the oracles `serializeOk` and `writeOk`.  Returns the base name of the
file written. -/
def SaveGame (filename : List Char) (now : List Char)
    (serializeOk writeOk : Bool) : Except String (List Char) :=
  if sanitizeFilename (if filename = [] then "save_".toList ++ now else filename) = [] then
    Except.error "invalid filename after sanitization"
  else if serializeOk = false then
    Except.error "failed to serialize game data"
  else if writeOk = false then
    Except.error "failed to write save file"
  else
    Except.ok (addJsonExt
      (sanitizeFilename (if filename = [] then "save_".toList ++ now else filename)))

/-- Embeds one entry of `os.ReadDir`: name, directory flag and
modification time. -/
structure DirEntry where
  name : List Char
  isDir : Bool
  modTime : Int
deriving DecidableEq

/-- Embeds the filter of `(*SaveManager).ListSaves`: keep non-directory
entries whose name ends in ".json". -/
def isSaveFile (e : DirEntry) : Bool :=
  !e.isDir && jsonExt.isSuffixOf e.name

/-- The ordering `ListSaves` sorts by: newer (larger modification time)
first.  `sort.Slice` uses the strict `CreatedAt.After`; since it is an
unstable sort, the order among equal times is unspecified and the
reflexive closure is an equivalent model. -/
def newerFirst (a b : DirEntry) : Prop :=
  b.modTime ≤ a.modTime

instance : DecidableRel newerFirst :=
  fun a b => inferInstanceAs (Decidable (b.modTime ≤ a.modTime))

instance : IsTotal DirEntry newerFirst :=
  ⟨fun a b => le_total b.modTime a.modTime⟩

instance : IsTrans DirEntry newerFirst :=
  ⟨fun _ _ _ h1 h2 => le_trans h2 h1⟩

/-- Embeds `(*SaveManager).ListSaves`: the `.json` regular files of the
directory, sorted by modification time, newest first. -/
def ListSaves (entries : List DirEntry) : List DirEntry :=
  List.insertionSort newerFirst (entries.filter isSaveFile)

/-- Embeds the empty-filename path of `(*SaveManager).LoadGame`: list
the saves and load the first (most recent) one, failing when the
directory holds no save files. -/
def LoadGameAuto (dir : String) (entries : List DirEntry) : Except String (List Char) :=
  match ListSaves entries with
  | [] => Except.error ("no save files found in directory: " ++ dir)
  | e :: _ => Except.ok e.name

/-! ### Pot-limit betting calculator (spec-modelled) -/

/-- Modelled from the spec: the `PotLimitCalculator.maxRaise` method is
not part of this source extract (only its selection in `FromSaveData`
is).  Per the spec, the maximum legal total raise-to amount is
`betToCall + (pot + betToCall*2)`, capped at
`playerStack + player.currentBet`. -/
def potLimitMaxRaise (pot betToCall playerStack currentBet : Nat) : Nat :=
  min (betToCall + (pot + betToCall * 2)) (playerStack + currentBet)

/-! ### Hand-rank total order (spec-modelled) -/

/-- Modelled from the spec: the `HandEvaluator` source is not part of
this extract.  The nine hand categories, in ascending strength order. -/
inductive HandCategory
  | highCard
  | pair
  | twoPair
  | trips
  | straight
  | flush
  | fullHouse
  | quads
  | straightFlush
deriving DecidableEq

/-- Numeric strength of a hand category (ascending). -/
def catVal : HandCategory → Nat
  | HandCategory.highCard => 0
  | HandCategory.pair => 1
  | HandCategory.twoPair => 2
  | HandCategory.trips => 3
  | HandCategory.straight => 4
  | HandCategory.flush => 5
  | HandCategory.fullHouse => 6
  | HandCategory.quads => 7
  | HandCategory.straightFlush => 8

/-- Modelled from the spec: the score of a 5-card hand is a category
plus a category-specific descending tiebreak rank vector. -/
structure HandRank where
  cat : HandCategory
  vec : List Nat
deriving DecidableEq

/-- Modelled from the spec: hand `a` beats hand `b` when its category is
stronger, or the categories are equal and its tiebreak vector is
lexicographically greater. -/
def beats (a b : HandRank) : Prop :=
  catVal b.cat < catVal a.cat ∨
    (catVal a.cat = catVal b.cat ∧ List.Lex (· < ·) b.vec a.vec)

/-! ### Betting state machine and chip conservation (spec-modelled)

The `Game` state machine (`StartNewHand`, `ProcessAction`, round
pooling, pot award) is not part of this source extract.  The spec is
explicit about how chips move: every valid chip-moving action takes the
amount from the player's stack into the player's street bet; when a
betting round closes, street bets are pooled into the pot; when a hand
ends, the pot is distributed in full to the players. -/

/-- Modelled from the spec: the per-seat state the chip-conservation
invariant mentions. -/
structure BPlayer where
  chips : Nat
  currentBet : Nat
  folded : Bool
deriving DecidableEq

/-- Modelled from the spec: the chip-bearing state of a hand. -/
structure BState where
  players : List BPlayer
  pot : Nat
deriving DecidableEq

/-- Sum of all stacks. -/
def chipSum (s : BState) : Nat := (s.players.map BPlayer.chips).sum

/-- Sum of the street bets not yet pooled. -/
def betSum (s : BState) : Nat := (s.players.map BPlayer.currentBet).sum

/-- A bet, call, raise or blind post of `amt` chips: stack to street bet. -/
def betUpd (p : BPlayer) (amt : Nat) : BPlayer :=
  BPlayer.mk (p.chips - amt) (p.currentBet + amt) p.folded

/-- Folding moves no chips. -/
def foldUpd (p : BPlayer) : BPlayer :=
  BPlayer.mk p.chips p.currentBet true

/-- Clearing a street bet once it has been pooled. -/
def clearBet (p : BPlayer) : BPlayer :=
  BPlayer.mk p.chips 0 p.folded

/-- Receiving a pot share of `amt` chips. -/
def awardUpd (p : BPlayer) (amt : Nat) : BPlayer :=
  BPlayer.mk (p.chips + amt) p.currentBet p.folded

/-- Modelled from the spec: one chip-moving transition of the betting
state machine.  `bet` covers blinds, bets, calls and raises (a valid
action never exceeds the stack; larger requests are clamped to all-in,
hence the bound); `fold` and checks move no chips; `pool` closes a
betting round, moving every street bet into the pot; `award`
distributes the whole pot (main and side pots together) at the end of a
hand. -/
inductive BStep : BState → BState → Prop
  | bet (pre post : List BPlayer) (p : BPlayer) (amt pot : Nat)
      (h : amt ≤ p.chips) :
      BStep (BState.mk (pre ++ p :: post) pot)
        (BState.mk (pre ++ betUpd p amt :: post) pot)
  | fold (pre post : List BPlayer) (p : BPlayer) (pot : Nat) :
      BStep (BState.mk (pre ++ p :: post) pot)
        (BState.mk (pre ++ foldUpd p :: post) pot)
  | pool (ps : List BPlayer) (pot : Nat) :
      BStep (BState.mk ps pot)
        (BState.mk (ps.map clearBet) (pot + (ps.map BPlayer.currentBet).sum))
  | award (ps : List BPlayer) (pot : Nat) (d : List Nat)
      (hlen : d.length = ps.length) (hsum : d.sum = pot) :
      BStep (BState.mk ps pot) (BState.mk (List.zipWith awardUpd ps d) 0)

/-- Reachability by any sequence of valid chip-moving transitions,
across any number of betting rounds and hands. -/
def BReach : BState → BState → Prop :=
  Relation.ReflTransGen BStep

/-- A hand boundary: the pot has been awarded and no street bet is
outstanding. -/
def handBoundary (s : BState) : Prop :=
  s.pot = 0 ∧ betSum s = 0

/-! ### Persistent-state views

The save format is summed up by the persistent projection of a game:
exactly what `GameSaveData` is meant to capture, and nothing mid-hand. -/

/-- The per-player persistent data: name, stack, CPU flag, seat and AI
profile. -/
structure PlayerPersist where
  name : String
  chips : Int
  isCPU : Bool
  position : Int
  profile : Option AIProfile

/-- The persistent projection of a player. -/
def Player.persist (p : Player) : PlayerPersist :=
  PlayerPersist.mk p.name p.chips p.isCPU p.position p.profile

/-- The persistent projection of a whole game: seating and per-player
persistent state, game metadata, rules, and settings. -/
structure GamePersist where
  players : List PlayerPersist
  handCount : Int
  dealerPos : Int
  smallBlind : Int
  bigBlind : Int
  blindUpInterval : Int
  totalInitialChips : Int
  rules : GameRules
  difficulty : Difficulty
  devMode : Bool
  showsOuts : Bool

/-- The persistent projection of a game. -/
def Game.persist (g : Game) : GamePersist :=
  GamePersist.mk (g.players.map Player.persist) g.handCount g.dealerPos
    g.smallBlind g.bigBlind g.blindUpInterval g.totalInitialChips g.rules
    g.difficulty g.devMode g.showsOuts

/-- The persistent data recorded in a save file, read back. -/
def GameSaveData.persistView (sd : GameSaveData) : GamePersist :=
  GamePersist.mk
    (sd.players.map fun pd =>
      PlayerPersist.mk pd.name pd.chips pd.isCPU pd.position
        (aiProfileFromSaveData pd.profile))
    sd.gameMetadata.handCount sd.gameMetadata.dealerPos
    sd.gameMetadata.smallBlind sd.gameMetadata.bigBlind
    sd.gameMetadata.blindUpInterval sd.gameMetadata.totalInitialChips
    sd.gameRules sd.settings.difficulty sd.settings.devMode
    sd.settings.showsOuts

/-- Bridge from a player's persistent data to its save record. -/
def persistToSave (pp : PlayerPersist) : PlayerSaveData :=
  PlayerSaveData.mk pp.name pp.chips pp.isCPU pp.position
    (aiProfileToSaveData pp.profile)

/-! ### Concrete fixtures used by witnesses and counterexamples -/

/-- The no-limit hold'em variant descriptor used by the repository's
tests. -/
def rulesNL : GameRules :=
  GameRules.mk "Test Game" "TEST" "no_limit" (HoleCardRules.mk 2 "any")
    (HandRankingsRules.mk true) (LowHandRules.mk false)

/-- A variant descriptor with a betting-limit kind the engine does not
support. -/
def rulesBad : GameRules :=
  GameRules.mk "Bad Game" "BAD" "fixed_limit" (HoleCardRules.mk 2 "any")
    (HandRankingsRules.mk true) (LowHandRules.mk false)

/-- A concrete AI profile. -/
def profileTP : AIProfile :=
  AIProfile.mk "Tight-Passive" 0.6 0.8 0.1 0.3 2.0 4.0

/-- A human player in mid-hand state. -/
def playerYou : Player :=
  Player.mk "YOU" 9700 false 0 PlayerStatus.playing 200 200 "calls"
    [Card.mk 0 14, Card.mk 1 13] none

/-- A CPU player in mid-hand state, with a profile. -/
def playerCpu : Player :=
  Player.mk "CPU1" 9800 true 1 PlayerStatus.playing 200 200 "raises"
    [Card.mk 2 12, Card.mk 3 11] (some profileTP)

/-- A mid-hand game with supported rules. -/
def gGood : Game :=
  Game.mk [playerYou, playerCpu] (some (Deck.mk [Card.mk 3 2]))
    [Card.mk 0 2] 400 0 1 GamePhase.preFlop 200 200 1 100 200
    Difficulty.medium false false rulesNL (RandState.mk 42) 0
    BettingLimitCalculator.noLimitCalculator 20000 2 1
    HandEvaluatorKind.evaluateHandStrength

/-- The same game as `gGood` in a completely different mid-hand state:
the players' persistent fields, the metadata, rules and settings agree,
while pot, phase, cards, deck, bets, statuses and random source all
differ. -/
def gGoodAlt : Game :=
  Game.mk
    [Player.mk "YOU" 9700 false 0 PlayerStatus.folded 0 0 "" [] none,
     Player.mk "CPU1" 9800 true 1 PlayerStatus.allIn 999 999 "all-in"
       [Card.mk 1 7] (some profileTP)]
    none [] 12345 0 (-1) GamePhase.handOver 0 0 1 100 200
    Difficulty.medium false false rulesNL (RandState.mk 7) 0
    BettingLimitCalculator.noLimitCalculator 20000 0 (-1)
    HandEvaluatorKind.evaluateHandStrength

/-- A game whose rules carry an unsupported betting-limit kind. -/
def gBad : Game :=
  Game.mk [] none [] 0 0 (-1) GamePhase.handOver 0 0 0 100 200
    Difficulty.medium false false rulesBad (RandState.mk 0) 0
    BettingLimitCalculator.noLimitCalculator 0 0 (-1)
    HandEvaluatorKind.evaluateHandStrength

/-- A minimal valid save. -/
def sdMinimal : GameSaveData :=
  GameSaveData.mk "2.0" 0 (GameMetadata.mk 0 0 0 0 0 0) [] rulesNL
    (GameSettings.mk Difficulty.medium false false)

/-- The game `FromSaveData` reconstructs from `sdMinimal` at clock 0. -/
def restoredMinimal : Game :=
  restoredGame sdMinimal 0 BettingLimitCalculator.noLimitCalculator

/-- The game `FromSaveData` reconstructs from `sdMinimal` at clock 1. -/
def restoredMinimal1 : Game :=
  restoredGame sdMinimal 1 BettingLimitCalculator.noLimitCalculator

/-! ### Theorems about the save module -/

/-- C1: every save data accepted by `FromSaveData` yields a game that
resumes at hand-over, ready to deal a fresh hand: phase `HandOver`, pot
0, betToCall 0, lastRaiseAmount 0, actionsTakenThisRound 0, and both
turn positions unset (-1) — whatever the save data holds. -/
theorem fromSaveData_resumes_at_hand_over (sd : GameSaveData) (now : Int)
    (g : Game) (h : FromSaveData sd now = Except.ok g) :
    g.phase = GamePhase.handOver ∧ g.pot = 0 ∧ g.betToCall = 0 ∧
      g.lastRaiseAmount = 0 ∧ g.actionsTakenThisRound = 0 ∧
      g.currentTurnPos = -1 ∧ g.actionCloserPos = -1 := by
  unfold FromSaveData at h
  split at h
  · exact absurd h (by simp)
  · split at h
    · cases h
      exact ⟨rfl, rfl, rfl, rfl, rfl, rfl, rfl⟩
    · split at h
      · cases h
        exact ⟨rfl, rfl, rfl, rfl, rfl, rfl, rfl⟩
      · exact absurd h (by simp)

/-- Witness for C1: the minimal valid save is accepted and the restored
game indeed resumes at hand-over with a fresh betting state. -/
theorem fromSaveData_resumes_at_hand_over_witness :
    restoredMinimal.phase = GamePhase.handOver ∧ restoredMinimal.pot = 0 ∧
      restoredMinimal.betToCall = 0 ∧ restoredMinimal.lastRaiseAmount = 0 ∧
      restoredMinimal.actionsTakenThisRound = 0 ∧
      restoredMinimal.currentTurnPos = -1 ∧
      restoredMinimal.actionCloserPos = -1 :=
  fromSaveData_resumes_at_hand_over sdMinimal 0 restoredMinimal rfl

/-- C4: `FromSaveData` succeeds exactly when the save's version is one
of the supported "1.0" and "2.0" and the betting-limit kind is
"pot_limit" or "no_limit"; in every other case it returns an error and
no game. -/
theorem fromSaveData_ok_iff_supported (sd : GameSaveData) (now : Int) :
    exceptIsOk (FromSaveData sd now) = true ↔
      ((sd.version = "1.0" ∨ sd.version = "2.0") ∧
       (sd.gameRules.bettingLimit = "pot_limit" ∨
        sd.gameRules.bettingLimit = "no_limit")) := by
  unfold FromSaveData
  by_cases h1 : sd.version = "1.0" <;>
    by_cases h2 : sd.version = "2.0" <;>
      by_cases h3 : sd.gameRules.bettingLimit = "pot_limit" <;>
        by_cases h4 : sd.gameRules.bettingLimit = "no_limit" <;>
          simp [h1, h2, h3, h4, exceptIsOk]

/-- Counterexample for C5: two restorations of the same save data, made
at different clock instants, carry different pseudo-random sources — the
seed is taken from the wall clock, not from the save. -/
theorem restore_rand_depends_on_clock :
    FromSaveData sdMinimal 0 = Except.ok restoredMinimal ∧
      FromSaveData sdMinimal 1 = Except.ok restoredMinimal1 ∧
      restoredMinimal.rand ≠ restoredMinimal1.rand :=
  ⟨rfl, rfl, by decide⟩

/-- C5 (amended): the restored game's single pseudo-random source is
seeded from the restoration-time clock reading and is independent of
the save data; two restorations share a draw sequence exactly when they
share that clock reading, not because a seed is stored in the save. -/
theorem restored_rand_seeded_from_clock (sd : GameSaveData) (now : Int)
    (g : Game) (h : FromSaveData sd now = Except.ok g) :
    g.rand = RandState.mk now := by
  unfold FromSaveData at h
  split at h
  · exact absurd h (by simp)
  · split at h
    · cases h; rfl
    · split at h
      · cases h; rfl
      · exact absurd h (by simp)

/-- Witness for C5 (amended): the minimal save restored at clock 0
carries the source seeded with 0. -/
theorem restored_rand_seeded_from_clock_witness :
    restoredMinimal.rand = RandState.mk 0 :=
  restored_rand_seeded_from_clock sdMinimal 0 restoredMinimal rfl

/-- The AI profile survives the save round trip field for field, nil to
nil. -/
theorem aiProfile_round_trip (p : Option AIProfile) :
    aiProfileFromSaveData (aiProfileToSaveData p) = p := by
  cases p <;> rfl

/-- The persistent view of a player survives the save round trip. -/
theorem player_persist_round_trip (p : Player) :
    Player.persist (playerFromSaveData (playerToSaveData p)) = Player.persist p := by
  unfold Player.persist playerFromSaveData playerToSaveData
  simp [aiProfile_round_trip]

/-- Counterexample for C2: a game whose rules carry an unsupported
betting-limit kind is accepted by `ToSaveData` but rejected by
`FromSaveData`, so the round trip does not succeed for every game. -/
theorem round_trip_rejects_unknown_betting_limit :
    exceptIsOk (FromSaveData (Game.ToSaveData gBad 0) 0) = false := rfl

/-- C2 (amended): for every game whose rules' betting-limit kind is one
of the two supported ones — which holds for every game the engine
constructs — the round trip `FromSaveData (ToSaveData g)` succeeds, and
the restored game agrees with `g` on every player's name, chips, CPU
flag, seat and AI profile (profile field for field, nil to nil), and on
dealer position, blinds, blind-up interval, total initial chips, hand
count, difficulty, dev mode, shows-outs and rules. -/
theorem round_trip_preserves_persistent_state (g : Game) (now t : Int)
    (hbl : g.rules.bettingLimit = "pot_limit" ∨ g.rules.bettingLimit = "no_limit") :
    exceptIsOk (FromSaveData (Game.ToSaveData g now) t) = true ∧
      ∀ g2, FromSaveData (Game.ToSaveData g now) t = Except.ok g2 →
        g2.players.map Player.persist = g.players.map Player.persist ∧
        g2.dealerPos = g.dealerPos ∧ g2.smallBlind = g.smallBlind ∧
        g2.bigBlind = g.bigBlind ∧ g2.blindUpInterval = g.blindUpInterval ∧
        g2.totalInitialChips = g.totalInitialChips ∧
        g2.handCount = g.handCount ∧ g2.difficulty = g.difficulty ∧
        g2.devMode = g.devMode ∧ g2.showsOuts = g.showsOuts ∧
        g2.rules = g.rules := by
  have hmap : ∀ gr : Game,
      ((gr.players.map playerToSaveData).map playerFromSaveData).map Player.persist
        = gr.players.map Player.persist := by
    intro gr
    simp only [List.map_map]
    exact List.map_congr_left fun p _ => player_persist_round_trip p
  constructor
  · rw [fromSaveData_ok_iff_supported]
    exact ⟨Or.inr rfl, hbl⟩
  · intro g2 h
    unfold FromSaveData at h
    split at h
    · exact absurd h (by simp)
    · split at h
      · cases h
        exact ⟨hmap g, rfl, rfl, rfl, rfl, rfl, rfl, rfl, rfl, rfl, rfl⟩
      · split at h
        · cases h
          exact ⟨hmap g, rfl, rfl, rfl, rfl, rfl, rfl, rfl, rfl, rfl, rfl⟩
        · exact absurd h (by simp)

/-- The game restored from `gGood`'s save at clock 0. -/
def restoredGood : Game :=
  restoredGame (Game.ToSaveData gGood 0) 0 BettingLimitCalculator.noLimitCalculator

/-- Witness for C2 (amended): the round trip succeeds on the concrete
mid-hand game `gGood` and preserves all its persistent state. -/
theorem round_trip_preserves_persistent_state_witness :
    exceptIsOk (FromSaveData (Game.ToSaveData gGood 0) 0) = true ∧
      (restoredGood.players.map Player.persist
          = gGood.players.map Player.persist ∧
        restoredGood.dealerPos = gGood.dealerPos ∧
        restoredGood.smallBlind = gGood.smallBlind ∧
        restoredGood.bigBlind = gGood.bigBlind ∧
        restoredGood.blindUpInterval = gGood.blindUpInterval ∧
        restoredGood.totalInitialChips = gGood.totalInitialChips ∧
        restoredGood.handCount = gGood.handCount ∧
        restoredGood.difficulty = gGood.difficulty ∧
        restoredGood.devMode = gGood.devMode ∧
        restoredGood.showsOuts = gGood.showsOuts ∧
        restoredGood.rules = gGood.rules) :=
  ⟨(round_trip_preserves_persistent_state gGood 0 0 (Or.inr rfl)).1,
   (round_trip_preserves_persistent_state gGood 0 0 (Or.inr rfl)).2
     restoredGood rfl⟩

/-- C3: the snapshot records exactly the persistent projection of the
game.  First, `ToSaveData` is a function of that projection alone: two
games agreeing on seating, per-player persistent state, metadata, rules
and settings — however much their pots, phases, hole cards, community
cards, decks, bets or random sources differ — produce identical saves,
so no mid-hand state is recorded.  Second, the full persistent
projection can be read back from the save, so all of it is recorded. -/
theorem toSaveData_records_exactly_persistent_state :
    (∀ g g2 : Game, ∀ now : Int, Game.persist g = Game.persist g2 →
        Game.ToSaveData g now = Game.ToSaveData g2 now) ∧
      (∀ g : Game, ∀ now : Int,
        (Game.ToSaveData g now).persistView = Game.persist g) := by
  constructor
  · intro g g2 now h
    have hplayers : g.players.map Player.persist = g2.players.map Player.persist :=
      congrArg GamePersist.players h
    have hmap : g.players.map playerToSaveData = g2.players.map playerToSaveData := by
      have e1 : g.players.map playerToSaveData
          = (g.players.map Player.persist).map persistToSave := by
        simp only [List.map_map]
        exact List.map_congr_left fun p _ => rfl
      have e2 : g2.players.map playerToSaveData
          = (g2.players.map Player.persist).map persistToSave := by
        simp only [List.map_map]
        exact List.map_congr_left fun p _ => rfl
      rw [e1, e2, hplayers]
    have h1 : g.handCount = g2.handCount := congrArg GamePersist.handCount h
    have h2 : g.dealerPos = g2.dealerPos := congrArg GamePersist.dealerPos h
    have h3 : g.smallBlind = g2.smallBlind := congrArg GamePersist.smallBlind h
    have h4 : g.bigBlind = g2.bigBlind := congrArg GamePersist.bigBlind h
    have h5 : g.blindUpInterval = g2.blindUpInterval :=
      congrArg GamePersist.blindUpInterval h
    have h6 : g.totalInitialChips = g2.totalInitialChips :=
      congrArg GamePersist.totalInitialChips h
    have h7 : g.rules = g2.rules := congrArg GamePersist.rules h
    have h8 : g.difficulty = g2.difficulty := congrArg GamePersist.difficulty h
    have h9 : g.devMode = g2.devMode := congrArg GamePersist.devMode h
    have h10 : g.showsOuts = g2.showsOuts := congrArg GamePersist.showsOuts h
    unfold Game.ToSaveData
    rw [hmap, h1, h2, h3, h4, h5, h6, h7, h8, h9, h10]
  · intro g now
    unfold Game.ToSaveData GameSaveData.persistView Game.persist
    simp only [List.map_map]
    congr 1
    exact List.map_congr_left fun p _ => by
      simp [playerToSaveData, Player.persist, aiProfile_round_trip]

/-- Witness for C3: `gGood` and `gGoodAlt` differ in pot, phase, cards,
deck, bets, statuses and random source yet produce identical saves, and
`gGood`'s save reads back to exactly its persistent projection. -/
theorem toSaveData_records_exactly_persistent_state_witness :
    Game.ToSaveData gGood 0 = Game.ToSaveData gGoodAlt 0 ∧
      (Game.ToSaveData gGood 0).persistView = Game.persist gGood :=
  ⟨toSaveData_records_exactly_persistent_state.1 gGood gGoodAlt 0 rfl,
   toSaveData_records_exactly_persistent_state.2 gGood 0⟩

/-! ### Theorems about the SaveManager -/

/-- Sequential single-character replacements act as one single-pass
replacement, provided the substitute character is not itself replaced
later. -/
theorem foldl_replaceAllChar (l : List Char) (s : List Char) (hl : '_' ∉ l) :
    l.foldl (fun acc old => replaceAllChar old acc) s
      = s.map fun c => if c ∈ l then '_' else c := by
  induction l generalizing s with
  | nil => simp [List.map_id]
  | cons a l ih =>
    rw [List.foldl_cons, ih (replaceAllChar a s) (fun h => hl (List.mem_cons_of_mem a h))]
    unfold replaceAllChar
    rw [List.map_map]
    apply List.map_congr_left
    intro c _
    simp only [Function.comp]
    by_cases hca : c = a
    · subst hca
      rw [if_pos rfl, if_neg (fun h => hl (List.mem_cons_of_mem c h)),
        if_pos (List.mem_cons_self c l)]
    · rw [if_neg hca]
      by_cases hcl : c ∈ l
      · rw [if_pos hcl, if_pos (List.mem_cons_of_mem a hcl)]
      · rw [if_neg hcl, if_neg (fun h => by
          rcases List.mem_cons.mp h with h | h
          · exact hca h
          · exact hcl h)]

/-- The nine sequential replacements of the Go code act as one
single-pass replacement of every invalid character. -/
theorem foldl_replaceAllChar_eq (s : List Char) :
    invalidFilenameChars.foldl (fun acc old => replaceAllChar old acc) s
      = s.map fun c => if c ∈ invalidFilenameChars then '_' else c :=
  foldl_replaceAllChar invalidFilenameChars s (by decide)

/-- Trimming only removes characters. -/
theorem mem_of_mem_trimWhile (p : Char → Bool) (s : List Char) (c : Char)
    (hc : c ∈ trimWhile p s) : c ∈ s := by
  unfold trimWhile at hc
  rw [List.mem_reverse] at hc
  have hc2 : c ∈ (s.dropWhile p).reverse := (List.dropWhile_sublist p).subset hc
  rw [List.mem_reverse] at hc2
  exact (List.dropWhile_sublist p).subset hc2

/-- Sanitization never leaves an invalid character in the name. -/
theorem sanitizeFilename_no_invalid (s : List Char) (c : Char)
    (hc : c ∈ sanitizeFilename s) : c ∉ invalidFilenameChars := by
  unfold sanitizeFilename at hc
  split at hc
  · fin_cases hc <;> decide
  · have hc2 : c ∈ invalidFilenameChars.foldl
        (fun acc old => replaceAllChar old acc) s :=
      mem_of_mem_trimWhile _ _ c (mem_of_mem_trimWhile _ _ c hc)
    rw [foldl_replaceAllChar_eq] at hc2
    rw [List.mem_map] at hc2
    obtain ⟨x, _, hx⟩ := hc2
    by_cases hmem : x ∈ invalidFilenameChars
    · rw [if_pos hmem] at hx
      rw [← hx]
      decide
    · rw [if_neg hmem] at hx
      rw [← hx]
      exact hmem

/-- Sanitization never returns the empty name, so the dead
invalid-filename branch of `SaveGame` is unreachable. -/
theorem sanitizeFilename_ne_nil (s : List Char) : sanitizeFilename s ≠ [] := by
  unfold sanitizeFilename
  split
  · decide
  · assumption

/-- The Go sanitization agrees with its single-pass description. -/
theorem sanitizeFilename_eq_spec (s : List Char) :
    sanitizeFilename s = sanitizeFilenameSpec s := by
  unfold sanitizeFilename sanitizeFilenameSpec sanitizeCore
  rw [foldl_replaceAllChar_eq]

/-- C9: for every requested name, `SaveGame` writes to the file whose
base name is the sanitized input — invalid characters replaced by
underscores (equivalently in one pass), whitespace and dots trimmed,
"save" substituted when sanitization leaves nothing, a timestamp-based
name used when the input itself is empty — with ".json" appended when
absent; and it fails exactly when serialization or the file write
fails. -/
theorem save_game_filename_spec (filename now : List Char)
    (serializeOk writeOk : Bool) :
    (exceptIsOk (SaveGame filename now serializeOk writeOk) = true ↔
      serializeOk = true ∧ writeOk = true) ∧
    (serializeOk = true → writeOk = true →
      SaveGame filename now serializeOk writeOk =
        Except.ok (addJsonExt (sanitizeFilename
          (if filename = [] then "save_".toList ++ now else filename)))) ∧
    sanitizeFilename filename = sanitizeFilenameSpec filename ∧
    sanitizeFilename filename ≠ [] ∧
    (∀ c ∈ sanitizeFilename filename, c ∉ invalidFilenameChars) := by
  refine ⟨?_, ?_, sanitizeFilename_eq_spec filename, sanitizeFilename_ne_nil filename,
    fun c hc => sanitizeFilename_no_invalid filename c hc⟩
  · unfold SaveGame
    rw [if_neg (fun h => sanitizeFilename_ne_nil _ h)]
    cases serializeOk <;> cases writeOk <;> simp [exceptIsOk]
  · intro hs hw
    unfold SaveGame
    rw [if_neg (fun h => sanitizeFilename_ne_nil _ h), hs, hw]
    simp

/-- Witness for C9: on the problematic name "test/save" with working
serialization and write, the save goes to "test_save.json"; the trimmed
and empty-after-sanitization cases behave as claimed. -/
theorem save_game_filename_spec_witness :
    SaveGame "test/save".toList "20250101_120000".toList true true
        = Except.ok (addJsonExt (sanitizeFilename "test/save".toList)) ∧
      SaveGame "test/save".toList "20250101_120000".toList true true
        = Except.ok "test_save.json".toList ∧
      sanitizeFilename "  test  ".toList = "test".toList ∧
      sanitizeFilename "...test...".toList = "test".toList ∧
      sanitizeFilename "...".toList = "save".toList :=
  ⟨(save_game_filename_spec "test/save".toList "20250101_120000".toList true true).2.1
      rfl rfl,
    rfl, rfl, rfl, rfl⟩

/-- C10: `ListSaves` returns exactly the regular ".json" files of the
save directory (a permutation of that filter), sorted by modification
time newest first; `LoadGame` with an empty filename loads the head of
that list, which is at least as recent as every save file, and fails
with the no-save-files error exactly when the directory contains no
".json" save file. -/
theorem list_saves_load_game_spec (dir : String) (entries : List DirEntry) :
    (ListSaves entries).Perm (entries.filter isSaveFile) ∧
    (ListSaves entries).Pairwise (fun a b => b.modTime ≤ a.modTime) ∧
    (∀ e ∈ ListSaves entries, e.isDir = false ∧ jsonExt.isSuffixOf e.name = true) ∧
    (∀ e rest, ListSaves entries = e :: rest →
      LoadGameAuto dir entries = Except.ok e.name ∧
        ∀ x ∈ entries.filter isSaveFile, x.modTime ≤ e.modTime) ∧
    (entries.filter isSaveFile = [] →
      LoadGameAuto dir entries
        = Except.error ("no save files found in directory: " ++ dir)) := by
  have hperm : (ListSaves entries).Perm (entries.filter isSaveFile) :=
    List.perm_insertionSort newerFirst (entries.filter isSaveFile)
  have hsorted : (ListSaves entries).Pairwise newerFirst :=
    List.sorted_insertionSort newerFirst (entries.filter isSaveFile)
  refine ⟨hperm, hsorted, ?_, ?_, ?_⟩
  · intro e he
    have he2 : e ∈ entries.filter isSaveFile := hperm.subset he
    have he3 := List.of_mem_filter he2
    unfold isSaveFile at he3
    constructor
    · cases hdir : e.isDir
      · rfl
      · rw [hdir] at he3
        simp at he3
    · cases hsuf : jsonExt.isSuffixOf e.name
      · rw [hsuf] at he3
        revert he3
        cases e.isDir <;> decide
      · rfl
  · intro e rest h
    constructor
    · unfold LoadGameAuto
      rw [h]
    · intro x hx
      have hx2 : x ∈ ListSaves entries := hperm.symm.subset hx
      rw [h] at hx2
      rcases List.mem_cons.mp hx2 with rfl | hx3
      · exact le_refl _
      · have := hsorted
        rw [h] at this
        exact (List.pairwise_cons.mp this).1 x hx3
  · intro h
    unfold LoadGameAuto ListSaves
    rw [h]
    rfl

/-- A concrete save directory listing: two ".json" files with different
modification times, a non-save text file, and a directory whose name
ends in ".json". -/
def entriesSample : List DirEntry :=
  [DirEntry.mk "older.json".toList false 5,
   DirEntry.mk "notes.txt".toList false 9,
   DirEntry.mk "newer.json".toList false 7,
   DirEntry.mk "dir.json".toList true 99]

/-- Witness for C10: on the sample directory, the newer save is listed
first and is the one the empty-filename load picks. -/
theorem list_saves_load_game_spec_witness :
    LoadGameAuto "saves" entriesSample = Except.ok "newer.json".toList ∧
      (∀ x ∈ entriesSample.filter isSaveFile,
        x.modTime ≤ (DirEntry.mk "newer.json".toList false 7).modTime) ∧
      (ListSaves entriesSample).Perm (entriesSample.filter isSaveFile) :=
  ⟨((list_saves_load_game_spec "saves" entriesSample).2.2.2.1
      (DirEntry.mk "newer.json".toList false 7)
      [DirEntry.mk "older.json".toList false 5] rfl).1,
   ((list_saves_load_game_spec "saves" entriesSample).2.2.2.1
      (DirEntry.mk "newer.json".toList false 7)
      [DirEntry.mk "older.json".toList false 5] rfl).2,
   (list_saves_load_game_spec "saves" entriesSample).1⟩

/-! ### Theorems about the spec-modelled components -/

/-- C7: the pot-limit maximum legal raise-to amount is
`betToCall + (pot + betToCall*2)` whenever the stack covers it, is
capped at `playerStack + currentBet` otherwise, and with pot 1000 and
betToCall 200 the uncapped maximum is exactly 1600. -/
theorem pot_limit_max_raise_spec (pot betToCall playerStack currentBet : Nat) :
    potLimitMaxRaise pot betToCall playerStack currentBet
        ≤ playerStack + currentBet ∧
      (betToCall + (pot + betToCall * 2) ≤ playerStack + currentBet →
        potLimitMaxRaise pot betToCall playerStack currentBet
          = betToCall + (pot + betToCall * 2)) ∧
      (playerStack + currentBet ≤ betToCall + (pot + betToCall * 2) →
        potLimitMaxRaise pot betToCall playerStack currentBet
          = playerStack + currentBet) ∧
      (1600 ≤ playerStack + currentBet →
        potLimitMaxRaise 1000 200 playerStack currentBet = 1600) := by
  refine ⟨min_le_right _ _, fun h => min_eq_left h, fun h => min_eq_right h, fun h => ?_⟩
  unfold potLimitMaxRaise
  omega

/-- Witness for C7: with pot 1000, betToCall 200 and a 5000-chip stack,
the maximum raise-to amount is exactly 1600; with a 1000-chip stack and
a 100-chip current bet it is capped to 1100. -/
theorem pot_limit_max_raise_spec_witness :
    potLimitMaxRaise 1000 200 5000 0 = 1600 ∧
      potLimitMaxRaise 1000 200 1000 100 = 1100 := by
  constructor
  · exact (pot_limit_max_raise_spec 1000 200 5000 0).2.2.2 (by decide)
  · exact (pot_limit_max_raise_spec 1000 200 1000 100).2.2.1 (by decide)

/-- Hand categories with equal numeric strength are equal. -/
theorem catVal_inj (a b : HandCategory) (h : catVal a = catVal b) : a = b := by
  cases a <;> cases b <;> first | rfl | exact absurd h (by decide)

/-- C8: the beats relation is a strict total order on hand ranks:
comparison is by category first, then tiebreak vectors
lexicographically; it is transitive, and two ranks are equal exactly
when neither beats the other. -/
theorem hand_ranking_strict_total_order :
    (∀ A B C : HandRank, beats A B → beats B C → beats A C) ∧
      (∀ A B : HandRank, A = B ↔ ¬ beats A B ∧ ¬ beats B A) := by
  constructor
  · intro A B C hab hbc
    rcases hab with h1 | ⟨h1, l1⟩ <;> rcases hbc with h2 | ⟨h2, l2⟩
    · exact Or.inl (lt_trans h2 h1)
    · exact Or.inl (h2 ▸ h1)
    · exact Or.inl (h1 ▸ h2)
    · exact Or.inr ⟨h2 ▸ h1, IsTrans.trans C.vec B.vec A.vec l2 l1⟩
  · intro A B
    constructor
    · rintro rfl
      constructor <;> rintro (h | ⟨h, l⟩)
      · exact lt_irrefl _ h
      · exact @IsAsymm.asymm (List ℕ) (List.Lex (· < ·)) _ _ _ l l
      · exact lt_irrefl _ h
      · exact @IsAsymm.asymm (List ℕ) (List.Lex (· < ·)) _ _ _ l l
    · rintro ⟨hab, hba⟩
      have hcat : catVal A.cat = catVal B.cat := by
        rcases lt_trichotomy (catVal A.cat) (catVal B.cat) with h | h | h
        · exact absurd (Or.inl h) hba
        · exact h
        · exact absurd (Or.inl h) hab
      have hvec : A.vec = B.vec := by
        rcases @trichotomous (List ℕ) (List.Lex (· < ·)) _ A.vec B.vec with h | h | h
        · exact absurd (Or.inr ⟨hcat.symm, h⟩) hba
        · exact h
        · exact absurd (Or.inr ⟨hcat, h⟩) hab
      cases A with
      | mk ac av =>
        cases B with
        | mk bc bv =>
          dsimp only at hcat hvec
          rw [catVal_inj ac bc hcat, hvec]

/-- Witness for C8: a concrete flush beats a concrete straight, which
beats a concrete pair, so the flush beats the pair by transitivity; and
the equality test agrees on two equal two-pair ranks. -/
theorem hand_ranking_strict_total_order_witness :
    beats (HandRank.mk HandCategory.flush [14, 9, 8, 5, 3])
        (HandRank.mk HandCategory.pair [10, 9, 8, 7]) ∧
      (HandRank.mk HandCategory.twoPair [11, 4, 9]
          = HandRank.mk HandCategory.twoPair [11, 4, 9] ↔
        ¬ beats (HandRank.mk HandCategory.twoPair [11, 4, 9])
            (HandRank.mk HandCategory.twoPair [11, 4, 9]) ∧
          ¬ beats (HandRank.mk HandCategory.twoPair [11, 4, 9])
            (HandRank.mk HandCategory.twoPair [11, 4, 9])) :=
  ⟨hand_ranking_strict_total_order.1
      (HandRank.mk HandCategory.flush [14, 9, 8, 5, 3])
      (HandRank.mk HandCategory.straight [9])
      (HandRank.mk HandCategory.pair [10, 9, 8, 7])
      (Or.inl (by decide)) (Or.inl (by decide)),
   hand_ranking_strict_total_order.2
      (HandRank.mk HandCategory.twoPair [11, 4, 9])
      (HandRank.mk HandCategory.twoPair [11, 4, 9])⟩

/-- Awarding pot shares adds exactly the distributed total to the
stacks. -/
theorem chips_sum_zipWith (ps : List BPlayer) (d : List Nat)
    (h : d.length = ps.length) :
    ((List.zipWith awardUpd ps d).map BPlayer.chips).sum
      = (ps.map BPlayer.chips).sum + d.sum := by
  induction ps generalizing d with
  | nil =>
    cases d with
    | nil => simp
    | cons a d => simp at h
  | cons p ps ih =>
    cases d with
    | nil => simp at h
    | cons a d =>
      simp only [List.zipWith_cons_cons, List.map_cons, List.sum_cons, awardUpd]
      rw [ih d (by simpa using h)]
      omega

/-- Awarding pot shares leaves street bets untouched. -/
theorem bets_zipWith (ps : List BPlayer) (d : List Nat)
    (h : d.length = ps.length) :
    (List.zipWith awardUpd ps d).map BPlayer.currentBet
      = ps.map BPlayer.currentBet := by
  induction ps generalizing d with
  | nil => simp
  | cons p ps ih =>
    cases d with
    | nil => simp at h
    | cons a d =>
      simp only [List.zipWith_cons_cons, List.map_cons, awardUpd]
      rw [ih d (by simpa using h)]

/-- Pooling street bets leaves stacks untouched and clears every bet. -/
theorem clearBet_maps (ps : List BPlayer) :
    (ps.map clearBet).map BPlayer.chips = ps.map BPlayer.chips ∧
      ((ps.map clearBet).map BPlayer.currentBet).sum = 0 := by
  constructor
  · rw [List.map_map]
    exact List.map_congr_left fun p _ => rfl
  · rw [List.map_map]
    apply List.sum_eq_zero
    intro x hx
    rcases List.mem_map.mp hx with ⟨p, _, rfl⟩
    rfl

/-- Every chip-moving transition preserves the tracked total of stacks,
street bets and pot. -/
theorem tracked_step (s t : BState) (h : BStep s t) :
    chipSum t + betSum t + t.pot = chipSum s + betSum s + s.pot := by
  cases h with
  | bet pre post p amt pot hle =>
    unfold chipSum betSum
    simp only [List.map_append, List.sum_append, List.map_cons, List.sum_cons, betUpd]
    omega
  | fold pre post p pot =>
    unfold chipSum betSum
    simp [foldUpd]
  | pool ps pot =>
    unfold chipSum betSum
    dsimp only
    rw [(clearBet_maps ps).1, (clearBet_maps ps).2]
    omega
  | award ps pot d hlen hsum =>
    unfold chipSum betSum
    dsimp only
    rw [chips_sum_zipWith ps d hlen, bets_zipWith ps d hlen, hsum]
    omega

/-- The tracked total is invariant along any reachable trace. -/
theorem tracked_reach (s t : BState) (h : BReach s t) :
    chipSum t + betSum t + t.pot = chipSum s + betSum s + s.pot := by
  induction h with
  | refl => rfl
  | tail _ hstep ih =>
    rw [tracked_step _ _ hstep]
    exact ih

/-- C6: chip conservation — starting from a hand boundary whose total
stack is the game's total initial chips, every sequence of valid
chip-moving actions across any number of betting rounds and hands keeps
the sum of stacks plus pot plus unpooled street bets constant, and at
every later hand boundary the sum of stacks alone equals the total
initial chips. -/
theorem chip_conservation (init s : BState) (hreach : BReach init s)
    (hpot : init.pot = 0) (hbets : betSum init = 0) :
    chipSum s + betSum s + s.pot = chipSum init ∧
      (handBoundary s → chipSum s = chipSum init) := by
  have h := tracked_reach init s hreach
  rw [hpot, hbets] at h
  constructor
  · omega
  · intro hb
    unfold handBoundary at hb
    obtain ⟨h1, h2⟩ := hb
    omega

/-- Initial state of the witness trace: two players with 100 chips. -/
def bsInit : BState :=
  BState.mk [BPlayer.mk 100 0 false, BPlayer.mk 100 0 false] 0

/-- After the first player bets 10. -/
def bs1 : BState :=
  BState.mk [BPlayer.mk 90 10 false, BPlayer.mk 100 0 false] 0

/-- After the round closes and the bet is pooled. -/
def bs2 : BState :=
  BState.mk [BPlayer.mk 90 0 false, BPlayer.mk 100 0 false] 10

/-- After the pot is awarded back to the first player. -/
def bs3 : BState :=
  BState.mk [BPlayer.mk 100 0 false, BPlayer.mk 100 0 false] 0

/-- Witness for C6: along the concrete bet, pool, award trace the
tracked total stays at 200 and the final hand boundary restores the
stack sum. -/
theorem chip_conservation_witness :
    chipSum bs3 + betSum bs3 + bs3.pot = chipSum bsInit ∧
      chipSum bs3 = chipSum bsInit := by
  have s1 : BStep bsInit bs1 :=
    BStep.bet [] [BPlayer.mk 100 0 false] (BPlayer.mk 100 0 false) 10 0 (by decide)
  have s2 : BStep bs1 bs2 :=
    BStep.pool [BPlayer.mk 90 10 false, BPlayer.mk 100 0 false] 0
  have s3 : BStep bs2 bs3 :=
    BStep.award [BPlayer.mk 90 0 false, BPlayer.mk 100 0 false] 10 [10, 0] rfl rfl
  have hreach : BReach bsInit bs3 :=
    Relation.ReflTransGen.tail (Relation.ReflTransGen.tail
      (Relation.ReflTransGen.tail Relation.ReflTransGen.refl s1) s2) s3
  exact ⟨(chip_conservation bsInit bs3 hreach rfl rfl).1,
    (chip_conservation bsInit bs3 hreach rfl rfl).2 ⟨rfl, rfl⟩⟩

end Pls7
